import Mathlib

/-
Verification of the offset-mapping and region-materialization engine of the
Text object tag (src/tags/object/Text.js).

The rendered root produced by this tag is a flat container: the text value is
rendered with every newline replaced by a line-break element, so the root's
children form a sequence of text nodes and BR elements.  The browser may
fragment the text across adjacent text nodes, so a root is modelled as a list
of leaves.  JavaScript numbers that may go negative are modelled as Int;
character strings as List Char (JS string indices are code-unit positions,
which coincide with character positions for the texts involved here).
-/

namespace TextTag

/-- A leaf of the rendered root: a text node holding characters, or a
line-break element (`BR`). -/
inductive Leaf where
  | text (s : List Char)
  | br
deriving DecidableEq

/-- Character count a leaf contributes to the flat text: a text node its
length, a line-break exactly one. -/
def leafLen : Leaf → Nat
  | .text s => s.length
  | .br => 1

/-- Total character length of the flat text represented by a rendered root. -/
def flatLen : List Leaf → Nat
  | [] => 0
  | l :: rest => leafLen l + flatLen rest

/-- Length of the leaf at child index `j` (0 when out of range). -/
def leafLenAt (L : List Leaf) (j : Nat) : Nat :=
  match L[j]? with
  | some l => leafLen l
  | none => 0

/-- Embedding of `findNode` from `_handleUpdate` (Text.js lines 352-377): walk
the children in order; a text node absorbs the remaining offset when
`left - node.length <= 0`, a BR when `left - 1 < 0`; otherwise the leaf's
contribution is subtracted and the walk continues.  Returns the child index
together with the residual local offset, or `none` when the walk falls off the
end (the source then returns `undefined`). -/
def findNodeL : List Leaf → Int → Option (Nat × Int)
  | [], _ => none
  | .text s :: rest, left =>
    if left - (s.length : Int) ≤ 0 then some (0, left)
    else (findNodeL rest (left - (s.length : Int))).map (fun p => (p.1 + 1, p.2))
  | .br :: rest, left =>
    if left - 1 < 0 then some (0, left)
    else (findNodeL rest (left - 1)).map (fun p => (p.1 + 1, p.2))

/-- Modelled from the spec: `Utils.HTML.toGlobalOffset` is imported from
`../../utils`, which is absent from the sources; per the spec it performs a
pre-order traversal in which passed-over text nodes contribute their full
length, a passed-over line-break contributes 1, and the target node contributes
only the local offset.  On a flat root this is the sum of the leaf lengths
before child `i`, plus the local offset `off`. -/
def toGlobalOffset : List Leaf → Nat → Nat → Nat
  | [], _, off => off
  | _ :: _, 0, off => off
  | l :: rest, i + 1, off => leafLen l + toGlobalOffset rest i off

/-- A resolution result `(child index, local offset)` is a good answer for
global offset `g`: it lies inside the root, its local offset is in range for
its leaf, and it denotes character position `g` of the flat text. -/
def goodPos (L : List Leaf) (g : Nat) (p : Nat × Int) : Prop :=
  p.1 < L.length ∧ 0 ≤ p.2 ∧ p.2.toNat ≤ leafLenAt L p.1 ∧
    toGlobalOffset L p.1 p.2.toNat = g

instance (L : List Leaf) (g : Nat) (p : Nat × Int) : Decidable (goodPos L g p) := by
  unfold goodPos
  infer_instance

/-- JavaScript `String.prototype.indexOf` for a single character: index of the
first occurrence, or -1. -/
def jsIndexOf : List Char → Char → Int
  | [], _ => -1
  | c :: rest, t =>
    if c = t then 0
    else if jsIndexOf rest t = -1 then -1 else jsIndexOf rest t + 1

/-- JavaScript `String.prototype.lastIndexOf` for a single character: index of
the last occurrence, or -1. -/
def jsLastIndexOf : List Char → Char → Int
  | [], _ => -1
  | c :: rest, t =>
    if jsLastIndexOf rest t = -1 then (if c = t then 0 else -1)
    else jsLastIndexOf rest t + 1

/-- A selection range over the rendered root, tracked at the level of global
character offsets.  `startBase`/`startLen` are the global offset at which the
start container begins and that container's length (likewise for the end
container); they are needed because two branches of `alignWord` address a
container directly (`setStart(r.startContainer, 0)` and
`setEnd(r.endContainer, r.endContainer.length)`). -/
structure RangeG where
  startBase : Nat
  startLen : Nat
  endBase : Nat
  endLen : Nat
  startOff : Nat
  endOff : Nat
deriving DecidableEq

/-- Start-boundary adjustment of `alignWord` (Text.js lines 209-223), at
global-offset level.  `Utils.HTML.findIdxContainer` is absent from the sources
and is modelled from the spec: the alignment "is translated back into a DOM
Range using OffsetMapper.resolveOffset", so `findIdxContainer g` returns the
(node, local offset) pair denoting global position `g`; hence
`setStart(node, len)` after `findIdxContainer(idx + 1)` places the start at
global position `idx + 1`.  When `idx` is 0 neither of the source's two `if`
branches fires and the start is left unchanged. -/
def alignWordStart (val : List Char) (r : RangeG) : Nat :=
  let strleft := val.take r.startOff
  if strleft.length ≠ 0 then
    let idxSpace := jsLastIndexOf strleft ' '
    let idxNewline := jsLastIndexOf strleft '\n'
    let idx := if idxSpace > idxNewline then idxSpace else idxNewline
    if idx = -1 then r.startBase
    else if idx > 0 then (idx + 1).toNat
    else r.startOff
  else r.startOff

/-- The three sequential `if` statements of `alignWord`'s end side
(Text.js lines 233-237) that pick the candidate index; when none of them fires
`idx` stays `undefined`, modelled as `none` (the later `undefined + end` is
`NaN`, which passes neither of the subsequent comparisons). -/
def alignWordEndIdx (idxSpace idxNewline : Int) : Option Int :=
  if idxNewline = -1 then some idxSpace
  else if idxSpace = -1 then some idxNewline
  else if idxNewline > 0 ∧ idxSpace > 0 then
    some (if idxSpace > idxNewline then idxNewline else idxSpace)
  else none

/-- End-boundary adjustment of `alignWord` (Text.js lines 225-250), at
global-offset level.  Note that the source computes `idx = idx + end` before
testing `idx === -1`, and `setEnd(node, len - 1)` after
`findIdxContainer(idx + 1)` places the end at global position `idx` (with
`findIdxContainer` modelled from the spec as the exact resolver, as for the
start side). -/
def alignWordEnd (val : List Char) (r : RangeG) : Nat :=
  let strright := val.drop r.endOff
  if strright.length ≠ 0 then
    match alignWordEndIdx (jsIndexOf strright ' ') (jsIndexOf strright '\n') with
    | none => r.endOff
    | some i =>
      let idx : Int := i + (r.endOff : Int)
      if idx = -1 then r.endBase + r.endLen
      else if idx > 0 then idx.toNat
      else r.endOff
  else r.endOff

/-- Embedding of `alignWord` (Text.js lines 204-253): clone the range and
adjust its two boundaries independently. -/
def alignWord (val : List Char) (r : RangeG) : RangeG :=
  { r with startOff := alignWordStart val r, endOff := alignWordEnd val r }

/-- The configured granularity attribute. -/
inductive Granularity where
  | symbol
  | word
  | sentence
  | paragraph
deriving DecidableEq

/-- Embedding of `alignRange` (Text.js lines 255-274): `symbol` returns the
range unchanged, `word` delegates to `alignWord`, and the `sentence` and
`paragraph` branches are empty, so the function falls through and returns
`undefined` (`none`). -/
def alignRange (g : Granularity) (val : List Char) (r : RangeG) : Option RangeG :=
  match g with
  | .symbol => some r
  | .word => some (alignWord val r)
  | .sentence => none
  | .paragraph => none

/-- A raw browser selection range: its global-offset view, whether its end
container is the block wrapper (`nodeName === "DIV"`), and whether
`xpath.fromRange` succeeds on it (it throws when the range escapes the root). -/
structure RawRange where
  rg : RangeG
  endIsDiv : Bool
  inRoot : Bool
deriving DecidableEq

/-- A normalized range ready for region creation: global offsets plus the
captured text (the source assigns `selection.toString()` to every range). -/
structure NormedRange where
  startOffset : Nat
  endOffset : Nat
  text : List Char
deriving DecidableEq

/-- The clamp applied when the end container is the block wrapper
(Text.js lines 287-289): `r.setEnd(r.startContainer, r.startContainer.length)`. -/
def clampDivEnd (r : RangeG) : RangeG :=
  { r with endBase := r.startBase, endLen := r.startLen,
           endOff := r.startBase + r.startLen }

/-- Processing of one selection range inside the loop of
`captureDocumentSelection` (Text.js lines 286-313): DIV clamp, then
`alignRange`; the remainder of the body runs inside `try { ... } catch {}`, so
an aligned range of `undefined` (`xpath.fromRange(undefined)` throws) or a
range outside the root yields `none` instead of a propagating fault. -/
def processRange (g : Granularity) (val : List Char) (selText : List Char)
    (r : RawRange) : Option NormedRange :=
  let r1 := if r.endIsDiv then clampDivEnd r.rg else r.rg
  match alignRange g val r1 with
  | none => none
  | some r2 => if r.inRoot then some ⟨r2.startOff, r2.endOff, selText⟩ else none

/-- The platform selection: collapsed flag, its ranges, and its overall text. -/
structure Selection where
  isCollapsed : Bool
  ranges : List RawRange
  text : List Char
deriving DecidableEq

/-- Embedding of `captureDocumentSelection` (Text.js lines 276-322): a
collapsed selection yields `[]`; otherwise each range is processed and the
failures are dropped from the returned list. -/
def captureDocumentSelection (g : Granularity) (val : List Char)
    (sel : Selection) : List NormedRange :=
  if sel.isCollapsed then [] else sel.ranges.filterMap (processRange g val sel.text)

/-- A region created from a normalized range by `addRegion`/`createRegion`. -/
structure CreatedRegion where
  startOffset : Nat
  endOffset : Nat
  text : List Char
deriving DecidableEq

/-- Region creation from a normalized range (`createRegion`, Text.js
lines 96-113): the region records the range's offsets and text. -/
def mkRegion (r : NormedRange) : CreatedRegion :=
  ⟨r.startOffset, r.endOffset, r.text⟩

/-- Embedding of `onMouseUp` (Text.js lines 328-344), returning the list of
regions it creates.  `states` models `item.activeStates()` (`none` for `null`,
otherwise the number of active states).  When selection is disabled, the states
are missing or empty, or no range was captured, nothing is created; otherwise
exactly `selectedRanges[0]` is turned into a region. -/
def onMouseUp (enabled : Bool) (g : Granularity) (val : List Char)
    (states : Option Nat) (sel : Selection) : List CreatedRegion :=
  if enabled then
    match states, captureDocumentSelection g val sel with
    | none, _ => []
    | some 0, _ => []
    | some (_ + 1), [] => []
    | some (_ + 1), r0 :: _ => [mkRegion r0]
  else []

/-- A persisted region as seen by `_handleUpdate`: its stored offsets (JS
numbers, possibly out of range for the current root). -/
structure Region where
  startOffset : Int
  endOffset : Int
deriving DecidableEq

/-- Materialization of one region inside `_handleUpdate` (Text.js
lines 379-394): both stored offsets are resolved with `findNode`; when either
resolution returns `undefined`, the subsequent `ss.node` access throws a
TypeError (the guard at lines 382-383 is commented out), modelled as `none`. -/
def materializeRegion (root : List Leaf) (r : Region) :
    Option ((Nat × Int) × (Nat × Int)) :=
  match findNodeL root r.startOffset, findNodeL root r.endOffset with
  | some s, some e => some (s, e)
  | _, _ => none

/-- Embedding of the `item.regions.forEach` pass of `_handleUpdate`
(Text.js lines 351-395): regions are materialized in order; the first failing
region throws out of the `forEach`, so the regions after it are not processed.
Returns the materialized results together with an aborted flag. -/
def handleUpdate (root : List Leaf) :
    List Region → List ((Nat × Int) × (Nat × Int)) × Bool
  | [] => ([], false)
  | r :: rest =>
    match materializeRegion root r with
    | none => ([], true)
    | some m =>
      let q := handleUpdate root rest
      (m :: q.1, q.2)

/-- A JavaScript value appearing in a serialized region field: the
serialization format is dynamically typed, so a field may hold a node-path
string or an integer offset. -/
inductive JVal where
  | str (s : String)
  | int (n : Int)
deriving DecidableEq

/-- The serialized region payload `obj.value` destructured by `fromStateJSON`
(Text.js line 149): per the spec's serialized shape, `start`/`end` are
node-path strings and `startOffset`/`endOffset` integer offsets. -/
structure SerValue where
  start : JVal
  startOffset : JVal
  «end» : JVal
  endOffset : JVal
  text : String
deriving DecidableEq

/-- The serialized object handed to `fromStateJSON`: its id, payload, the
`fromModel.type`, and the normalization note. -/
structure SerObj where
  id : String
  value : SerValue
  fromType : String
  normalization : String
deriving DecidableEq

/-- The tree handed to `createRegion` by `fromStateJSON`. -/
structure RegionTree where
  pid : String
  startOffset : JVal
  endOffset : JVal
  start : JVal
  «end» : JVal
  text : String
  normalization : String
deriving DecidableEq

/-- Embedding of `fromStateJSON` (Text.js lines 148-174): textarea/choices
results are delegated elsewhere (`none`); otherwise a region tree is created
whose `startOffset` is the serialized `start` field, whose `endOffset` is the
serialized `end` field, and whose `start`/`end` node paths are set to empty
strings. -/
def fromStateJSON (obj : SerObj) : Option RegionTree :=
  if obj.fromType = "textarea" ∨ obj.fromType = "choices" then none
  else
    some { pid := obj.id, startOffset := obj.value.start,
           endOffset := obj.value.«end», start := .str "", «end» := .str "",
           text := obj.value.text, normalization := obj.normalization }

/-- Unfolding equation of `findNodeL` on a leading text node. -/
theorem findNodeL_text (s : List Char) (rest : List Leaf) (left : Int) :
    findNodeL (Leaf.text s :: rest) left =
      if left - (s.length : Int) ≤ 0 then some (0, left)
      else (findNodeL rest (left - (s.length : Int))).map (fun p => (p.1 + 1, p.2)) := by
  rfl

/-- Unfolding equation of `findNodeL` on a leading line-break. -/
theorem findNodeL_br (rest : List Leaf) (left : Int) :
    findNodeL (Leaf.br :: rest) left =
      if left - 1 < 0 then some (0, left)
      else (findNodeL rest (left - 1)).map (fun p => (p.1 + 1, p.2)) := by
  rfl

/-- The length of the leaf at a successor index on a cons. -/
theorem leafLenAt_cons_succ (l : Leaf) (L : List Leaf) (j : Nat) :
    leafLenAt (l :: L) (j + 1) = leafLenAt L j := by
  simp [leafLenAt]

/-- A valid tree position never denotes a global offset beyond the flat
length. -/
theorem toGlobalOffset_le_flatLen (L : List Leaf) (i off : Nat)
    (hi : i < L.length) (hoff : off ≤ leafLenAt L i) :
    toGlobalOffset L i off ≤ flatLen L := by
  induction L generalizing i with
  | nil => simp at hi
  | cons l rest ih =>
    cases i with
    | zero =>
      have h0 : off ≤ leafLen l := by simpa [leafLenAt] using hoff
      simp only [toGlobalOffset, flatLen]
      omega
    | succ j =>
      have hj : j < rest.length := by simpa using hi
      have hoff' : off ≤ leafLenAt rest j := by
        simpa [leafLenAt_cons_succ] using hoff
      have := ih j hj hoff'
      simp only [toGlobalOffset, flatLen]
      omega

/-- Lifting a good resolution result from the tail to the whole root. -/
theorem goodPos_lift (l : Leaf) (L : List Leaf) (g : Nat) (p : Nat × Int)
    (h : goodPos L g p) : goodPos (l :: L) (leafLen l + g) (p.1 + 1, p.2) := by
  obtain ⟨h1, h2, h3, h4⟩ := h
  refine ⟨by simpa using Nat.succ_lt_succ h1, h2, ?_, ?_⟩
  · simpa [leafLenAt_cons_succ] using h3
  · simp only [toGlobalOffset]
    omega

/-- Resolution succeeds at every global offset strictly below the flat length,
and the answer denotes exactly that offset. -/
theorem findNodeL_of_lt (L : List Leaf) (g : Nat) (h : g < flatLen L) :
    ∃ p, findNodeL L (g : Int) = some p ∧ goodPos L g p := by
  induction L generalizing g with
  | nil => simp [flatLen] at h
  | cons l rest ih =>
    cases l with
    | text s =>
      by_cases hg : g ≤ s.length
      · refine ⟨(0, (g : Int)), ?_, ?_, ?_, ?_, ?_⟩
        · rw [findNodeL_text, if_pos (by omega)]
        · simp
        · omega
        · simpa [leafLenAt, leafLen] using hg
        · rfl
      · have hlt : g - s.length < flatLen rest := by
          simp only [flatLen, leafLen] at h
          omega
        obtain ⟨p, hp, hgood⟩ := ih (g - s.length) hlt
        have hcast : (g : Int) - (s.length : Int) = ((g - s.length : Nat) : Int) := by
          omega
        refine ⟨(p.1 + 1, p.2), ?_, ?_⟩
        · rw [findNodeL_text, if_neg (by omega), hcast, hp]
          rfl
        · have := goodPos_lift (Leaf.text s) rest (g - s.length) p hgood
          have hsum : leafLen (Leaf.text s) + (g - s.length) = g := by
            simp only [leafLen]
            omega
          rwa [hsum] at this
    | br =>
      by_cases hg : g = 0
      · subst hg
        refine ⟨(0, 0), ?_, ?_, ?_, ?_, ?_⟩
        · rw [findNodeL_br, if_pos (by omega)]
          simp
        · simp
        · omega
        · simp [leafLenAt, leafLen]
        · rfl
      · have hlt : g - 1 < flatLen rest := by
          simp only [flatLen, leafLen] at h
          omega
        obtain ⟨p, hp, hgood⟩ := ih (g - 1) hlt
        have hcast : (g : Int) - 1 = ((g - 1 : Nat) : Int) := by omega
        refine ⟨(p.1 + 1, p.2), ?_, ?_⟩
        · rw [findNodeL_br, if_neg (by omega), hcast, hp]
          rfl
        · have := goodPos_lift Leaf.br rest (g - 1) p hgood
          have hsum : leafLen Leaf.br + (g - 1) = g := by
            simp only [leafLen]
            omega
          rwa [hsum] at this

/-- When the root's last leaf is a text node, resolution also succeeds at
global offset equal to the flat length, clamping to a valid end position. -/
theorem findNodeL_endText (L' : List Leaf) (s : List Char) :
    ∃ p, findNodeL (L' ++ [Leaf.text s]) ((flatLen (L' ++ [Leaf.text s]) : Nat) : Int) = some p ∧
      goodPos (L' ++ [Leaf.text s]) (flatLen (L' ++ [Leaf.text s])) p := by
  induction L' with
  | nil =>
    have hfl : flatLen ([] ++ [Leaf.text s]) = s.length := by
      simp [flatLen, leafLen]
    rw [hfl]
    refine ⟨(0, (s.length : Int)), ?_, ?_, ?_, ?_, ?_⟩
    · rw [List.nil_append, findNodeL_text, if_pos (by omega)]
    · simp
    · omega
    · simp [leafLenAt, leafLen]
    · rfl
  | cons l L'' ih =>
    obtain ⟨p, hp, hgood⟩ := ih
    rw [List.cons_append]
    set M := L'' ++ [Leaf.text s] with hM
    have hfl : flatLen (l :: M) = leafLen l + flatLen M := rfl
    cases l with
    | text t =>
      by_cases h0 : flatLen M = 0
      · refine ⟨(0, ((flatLen (Leaf.text t :: M) : Nat) : Int)), ?_, ?_, ?_, ?_, ?_⟩
        · rw [findNodeL_text,
            if_pos (by rw [hfl]; simp only [leafLen, h0]; omega)]
        · simp
        · omega
        · rw [hfl]
          simp [leafLenAt, leafLen, h0]
        · simp only [toGlobalOffset, Int.toNat_natCast]
      · have hcast : ((flatLen (Leaf.text t :: M) : Nat) : Int) - (t.length : Int) =
            ((flatLen M : Nat) : Int) := by
          rw [hfl]
          simp only [leafLen]
          omega
        refine ⟨(p.1 + 1, p.2), ?_, ?_⟩
        · rw [findNodeL_text,
            if_neg (by rw [hfl]; simp only [leafLen]; omega), hcast, hp]
          rfl
        · rw [hfl]
          exact goodPos_lift (Leaf.text t) M (flatLen M) p hgood
    | br =>
      have hcast : ((flatLen (Leaf.br :: M) : Nat) : Int) - 1 =
          ((flatLen M : Nat) : Int) := by
        rw [hfl]
        simp only [leafLen]
        omega
      refine ⟨(p.1 + 1, p.2), ?_, ?_⟩
      · rw [findNodeL_br,
          if_neg (by rw [hfl]; simp only [leafLen]; omega), hcast, hp]
        rfl
      · rw [hfl]
        exact goodPos_lift Leaf.br M (flatLen M) p hgood

/-- C1 (amended): for every fragmentation of the TextValue into adjacent text
nodes and line-break elements and every valid tree position `(i, off)`,
resolving the global offset computed by `toGlobalOffset` with the
offset-resolution traversal (`findNode`) yields a valid position denoting the
same character position in the flat text — provided the offset is strictly
below the flat length, or the fragmentation's last node is a text node (at
offset = length a fragmentation ending in a line-break makes `findNode` return
`undefined`). -/
theorem c1_roundtrip (L : List Leaf) (i off : Nat)
    (hi : i < L.length) (hoff : off ≤ leafLenAt L i)
    (hrange : toGlobalOffset L i off < flatLen L ∨ ∃ L' s, L = L' ++ [Leaf.text s]) :
    ∃ p, findNodeL L ((toGlobalOffset L i off : Nat) : Int) = some p ∧
      goodPos L (toGlobalOffset L i off) p := by
  rcases hrange with hlt | ⟨L', s, rfl⟩
  · exact findNodeL_of_lt L _ hlt
  · by_cases hlt : toGlobalOffset (L' ++ [Leaf.text s]) i off < flatLen (L' ++ [Leaf.text s])
    · exact findNodeL_of_lt _ _ hlt
    · have hle := toGlobalOffset_le_flatLen _ i off hi hoff
      have heq : toGlobalOffset (L' ++ [Leaf.text s]) i off =
          flatLen (L' ++ [Leaf.text s]) := by omega
      rw [heq]
      exact findNodeL_endText L' s

/-- C1 witness: the fragmentation `["ab", BR, "cd"]` of `"ab\ncd"` at the
position of the character `c` (global offset 3). -/
theorem c1_roundtrip_witness :
    ∃ p, findNodeL [Leaf.text "ab".data, Leaf.br, Leaf.text "cd".data]
        ((toGlobalOffset [Leaf.text "ab".data, Leaf.br, Leaf.text "cd".data] 2 0 : Nat) : Int) =
          some p ∧
      goodPos [Leaf.text "ab".data, Leaf.br, Leaf.text "cd".data]
        (toGlobalOffset [Leaf.text "ab".data, Leaf.br, Leaf.text "cd".data] 2 0) p :=
  c1_roundtrip [Leaf.text "ab".data, Leaf.br, Leaf.text "cd".data] 2 0
    (by decide) (by decide) (Or.inl (by decide))

/-- C1 counterexample: for the fragmentation `["a", BR]` of `"a\n"`, the valid
position `(1, 1)` has global offset 2 = length, yet `findNode` returns
`undefined` there, so resolve composed with toGlobal is not the identity on all
of `[0, length]` for every fragmentation. -/
theorem c1_counterexample :
    toGlobalOffset [Leaf.text ['a'], Leaf.br] 1 1 = flatLen [Leaf.text ['a'], Leaf.br] ∧
    1 ≤ leafLenAt [Leaf.text ['a'], Leaf.br] 1 ∧
    findNodeL [Leaf.text ['a'], Leaf.br]
      ((toGlobalOffset [Leaf.text ['a'], Leaf.br] 1 1 : Nat) : Int) = none := by
  decide

/-- C2 (amended): when called with offset equal to length(TextValue),
`findNode` returns a valid end-of-content position provided the rendered
content ends in a text node; when called with a negative offset it does not
fail (there is no `OffsetOutOfRangeError` anywhere): it returns the first
child together with the unchanged negative local offset. -/
theorem c2_boundaries (L' : List Leaf) (s : List Char) (M : List Leaf)
    (hM : M ≠ []) (p : Int) (hp : p < 0) :
    (∃ q, findNodeL (L' ++ [Leaf.text s]) ((flatLen (L' ++ [Leaf.text s]) : Nat) : Int) =
        some q ∧ goodPos (L' ++ [Leaf.text s]) (flatLen (L' ++ [Leaf.text s])) q) ∧
    findNodeL M p = some (0, p) := by
  refine ⟨findNodeL_endText L' s, ?_⟩
  cases M with
  | nil => exact absurd rfl hM
  | cons l rest =>
    cases l with
    | text t => rw [findNodeL_text, if_pos (by omega)]
    | br => rw [findNodeL_br, if_pos (by omega)]

/-- C2 witness: end-of-content clamping on `["a", "b"]` and a negative offset
on `[BR]`. -/
theorem c2_boundaries_witness :
    (∃ q, findNodeL ([Leaf.text "a".data] ++ [Leaf.text "b".data])
        ((flatLen ([Leaf.text "a".data] ++ [Leaf.text "b".data]) : Nat) : Int) = some q ∧
      goodPos ([Leaf.text "a".data] ++ [Leaf.text "b".data])
        (flatLen ([Leaf.text "a".data] ++ [Leaf.text "b".data])) q) ∧
    findNodeL [Leaf.br] (-2) = some (0, -2) :=
  c2_boundaries [Leaf.text "a".data] "b".data [Leaf.br] (by decide) (-2) (by decide)

/-- C2 counterexample: a negative offset does not fail — on the root `["ab"]`
offset -1 returns the first text node with local offset -1 instead of raising
an `OffsetOutOfRangeError`; and on a root whose content ends in a line-break
(`[BR]`, flat length 1) the end-of-content offset is not clamped but resolves
to `undefined`. -/
theorem c2_counterexample :
    findNodeL [Leaf.text "ab".data] (-1) = some (0, -1) ∧
    findNodeL [Leaf.br] ((flatLen [Leaf.br] : Nat) : Int) = none := by
  decide

/-- The result of `indexOf` is at least -1. -/
theorem jsIndexOf_ge (l : List Char) (c : Char) : -1 ≤ jsIndexOf l c := by
  induction l with
  | nil => simp [jsIndexOf]
  | cons x rest ih =>
    by_cases hx : x = c
    · simp [jsIndexOf, hx]
    · by_cases hr : jsIndexOf rest c = -1
      · simp [jsIndexOf, hx, hr]
      · simp only [jsIndexOf, if_neg hx, if_neg hr]
        omega

/-- `indexOf` finds the head character at index 0. -/
theorem jsIndexOf_cons_self (l : List Char) (c : Char) : jsIndexOf (c :: l) c = 0 := by
  simp [jsIndexOf]

/-- When the head character differs, `indexOf` is -1 or at least 1. -/
theorem jsIndexOf_cons_ne (l : List Char) (c t : Char) (h : c ≠ t) :
    jsIndexOf (c :: l) t = -1 ∨ 1 ≤ jsIndexOf (c :: l) t := by
  have := jsIndexOf_ge l t
  by_cases hr : jsIndexOf l t = -1
  · left
    simp [jsIndexOf, h, hr]
  · right
    simp only [jsIndexOf, if_neg h, if_neg hr]
    omega

/-- The result of `lastIndexOf` is below the string length. -/
theorem jsLastIndexOf_lt (l : List Char) (c : Char) :
    jsLastIndexOf l c < (l.length : Int) := by
  induction l with
  | nil => simp [jsLastIndexOf]
  | cons x rest ih =>
    by_cases hr : jsLastIndexOf rest c = -1
    · by_cases hx : x = c
      · simp only [jsLastIndexOf, if_pos hr, if_pos hx, List.length_cons]
        omega
      · simp only [jsLastIndexOf, if_pos hr, if_neg hx, List.length_cons]
        omega
    · simp only [jsLastIndexOf, if_neg hr, List.length_cons]
      push_cast
      omega

/-- Unfolding equation of `lastIndexOf` on a cons. -/
theorem jsLastIndexOf_cons (x : Char) (rest : List Char) (t : Char) :
    jsLastIndexOf (x :: rest) t =
      if jsLastIndexOf rest t = -1 then (if x = t then 0 else -1)
      else jsLastIndexOf rest t + 1 := by
  rfl

/-- `lastIndexOf` finds a final occurrence at the last index. -/
theorem jsLastIndexOf_append_self (l : List Char) (c : Char) :
    jsLastIndexOf (l ++ [c]) c = (l.length : Int) := by
  induction l with
  | nil => simp [jsLastIndexOf]
  | cons x rest ih =>
    have hne : jsLastIndexOf (rest ++ [c]) c ≠ -1 := by
      rw [ih]
      omega
    rw [List.cons_append, jsLastIndexOf_cons, if_neg hne, ih, List.length_cons]
    push_cast
    ring

/-- Appending a different final character does not change `lastIndexOf`. -/
theorem jsLastIndexOf_append_ne (l : List Char) (c t : Char) (h : t ≠ c) :
    jsLastIndexOf (l ++ [c]) t = jsLastIndexOf l t := by
  induction l with
  | nil =>
    have hc : c ≠ t := fun hc => h hc.symm
    simp [jsLastIndexOf, hc]
  | cons x rest ih =>
    rw [List.cons_append, jsLastIndexOf_cons, ih, jsLastIndexOf_cons]

/-- When the space candidate sits at index 0 and a newline follows strictly
later, none of the three assignments in `alignWord`'s end side fires. -/
theorem alignWordEndIdx_zero_pos (n : Int) (h : 1 ≤ n) : alignWordEndIdx 0 n = none := by
  unfold alignWordEndIdx
  rw [if_neg (by omega), if_neg (by omega), if_neg (by omega)]

/-- When the newline candidate sits at index 0 and a space follows strictly
later, none of the three assignments in `alignWord`'s end side fires. -/
theorem alignWordEndIdx_pos_zero (n : Int) (h : 1 ≤ n) : alignWordEndIdx n 0 = none := by
  unfold alignWordEndIdx
  rw [if_neg (by omega), if_neg (by omega), if_neg (by omega)]

/-- Dispatch for `alignWordEnd` when a candidate index was assigned. -/
theorem alignWordEnd_eqSome (val : List Char) (a b c d e f : Nat) (i : Int)
    (hlen : (val.drop f).length ≠ 0)
    (h : alignWordEndIdx (jsIndexOf (val.drop f) ' ') (jsIndexOf (val.drop f) '\n') = some i) :
    alignWordEnd val ⟨a, b, c, d, e, f⟩ =
      if i + (f : Int) = -1 then c + d
      else if i + (f : Int) > 0 then (i + (f : Int)).toNat
      else f := by
  unfold alignWordEnd
  rw [if_pos hlen, h]

/-- Dispatch for `alignWordEnd` when no candidate index was assigned (`idx`
stays `undefined` and the end offset is left unchanged). -/
theorem alignWordEnd_eqNone (val : List Char) (a b c d e f : Nat)
    (hlen : (val.drop f).length ≠ 0)
    (h : alignWordEndIdx (jsIndexOf (val.drop f) ' ') (jsIndexOf (val.drop f) '\n') = none) :
    alignWordEnd val ⟨a, b, c, d, e, f⟩ = f := by
  unfold alignWordEnd
  rw [if_pos hlen, h]

/-- C3: on TextValue `"the quick brown fox"`, word alignment of the raw
selection with global offsets (5, 8) yields the range with global offsets
(4, 9), which spans exactly `"quick"`. -/
theorem c3_word_example :
    alignWord "the quick brown fox".data ⟨0, 19, 0, 19, 5, 8⟩ = ⟨0, 19, 0, 19, 4, 9⟩ ∧
    ("the quick brown fox".data.drop 4).take 5 = "quick".data := by
  decide

/-- C7: evaluation of the word-alignment end boundary at the failing input
TextValue `"abcd"` with raw range (0, 2): no space or line-break follows, and
instead of clamping to end-of-text (global offset 4) the code moves the end
backward to global offset 1, because `idx = idx + end` is computed before the
`idx === -1` not-found test, leaving the clamping branch dead. -/
theorem c7_end_bug_eval :
    alignWord "abcd".data ⟨0, 4, 0, 4, 0, 2⟩ = ⟨0, 4, 0, 4, 0, 1⟩ := by
  decide

/-- C9: word alignment is idempotent — whenever the raw start offset is 0 or
preceded by a space or line-break, and the raw end offset is end-of-text or
followed by a space or line-break, `alignWord` returns the same offsets
unchanged, for every placement of the start and end containers. -/
theorem c9_word_idempotent (val : List Char) (sB sL eB eL s e : Nat)
    (hs : s ≤ val.length) (he : e ≤ val.length)
    (hstart : s = 0 ∨ ∃ l c, (c = ' ' ∨ c = '\n') ∧ val.take s = l ++ [c])
    (hend : e = val.length ∨ ∃ c r, (c = ' ' ∨ c = '\n') ∧ val.drop e = c :: r) :
    alignWord val ⟨sB, sL, eB, eL, s, e⟩ = ⟨sB, sL, eB, eL, s, e⟩ := by
  have hstart' : alignWordStart val ⟨sB, sL, eB, eL, s, e⟩ = s := by
    rcases hstart with rfl | ⟨l, c, hc, hl⟩
    · simp [alignWordStart]
    · have hlen : (val.take s).length = s := by
        simp [List.length_take]
        omega
      have hllen : l.length = s - 1 ∧ 1 ≤ s := by
        rw [hl] at hlen
        simp at hlen
        omega
      unfold alignWordStart
      simp only [hl]
      rw [if_pos (by simp)]
      have hidx :
          (if jsLastIndexOf (l ++ [c]) ' ' > jsLastIndexOf (l ++ [c]) '\n' then
              jsLastIndexOf (l ++ [c]) ' '
            else jsLastIndexOf (l ++ [c]) '\n') = (l.length : Int) := by
        rcases hc with rfl | rfl
        · have h1 := jsLastIndexOf_append_self l ' '
          have h2 := jsLastIndexOf_append_ne l ' ' '\n' (by decide)
          have h3 := jsLastIndexOf_lt l '\n'
          rw [if_pos (by omega)]
          exact h1
        · have h1 := jsLastIndexOf_append_self l '\n'
          have h2 := jsLastIndexOf_append_ne l '\n' ' ' (by decide)
          have h3 := jsLastIndexOf_lt l ' '
          rw [if_neg (by omega)]
          exact h1
      rw [hidx]
      by_cases h0 : l.length = 0
      · rw [if_neg (by omega), if_neg (by omega)]
      · rw [if_neg (by omega), if_pos (by omega)]
        omega
  have hend' : alignWordEnd val ⟨sB, sL, eB, eL, s, e⟩ = e := by
    rcases hend with rfl | ⟨c, r, hc, hr⟩
    · simp [alignWordEnd]
    · have hlen : (val.drop e).length ≠ 0 := by
        rw [hr]
        simp
      have hone :
          alignWordEndIdx (jsIndexOf (val.drop e) ' ') (jsIndexOf (val.drop e) '\n') = some 0 ∨
          alignWordEndIdx (jsIndexOf (val.drop e) ' ') (jsIndexOf (val.drop e) '\n') = none := by
        rw [hr]
        rcases hc with rfl | rfl
        · rw [jsIndexOf_cons_self]
          rcases jsIndexOf_cons_ne r ' ' '\n' (by decide) with h2 | h2
          · rw [h2]
            left
            decide
          · right
            exact alignWordEndIdx_zero_pos _ h2
        · rw [jsIndexOf_cons_self]
          rcases jsIndexOf_cons_ne r '\n' ' ' (by decide) with h2 | h2
          · rw [h2]
            left
            decide
          · right
            exact alignWordEndIdx_pos_zero _ h2
      rcases hone with hone | hone
      · rw [alignWordEnd_eqSome val sB sL eB eL s e 0 hlen hone]
        by_cases h0 : e = 0
        · subst h0
          rw [if_neg (by omega), if_neg (by omega)]
        · rw [if_neg (by omega), if_pos (by omega)]
          omega
      · exact alignWordEnd_eqNone val sB sL eB eL s e hlen hone
  unfold alignWord
  rw [hstart', hend']

/-- C9 witness: the already word-aligned range (4, 9) over
`"the quick brown fox"` is returned unchanged. -/
theorem c9_word_idempotent_witness :
    alignWord "the quick brown fox".data ⟨1, 2, 3, 4, 4, 9⟩ = ⟨1, 2, 3, 4, 4, 9⟩ :=
  c9_word_idempotent "the quick brown fox".data 1 2 3 4 4 9 (by decide) (by decide)
    (Or.inr ⟨"the".data, ' ', Or.inl rfl, by decide⟩)
    (Or.inr ⟨' ', "brown fox".data, Or.inl rfl, by decide⟩)

/-- A per-range processor that always fails yields no normalized ranges. -/
theorem filterMap_all_none (l : List RawRange) (f : RawRange → Option NormedRange)
    (h : ∀ r, f r = none) : l.filterMap f = [] := by
  induction l with
  | nil => rfl
  | cons x xs ih => simp [List.filterMap_cons, h x, ih]

/-- C5 (amended): requesting sentence or paragraph granularity makes
`alignRange` fall through its empty branches and return `undefined` (`none`) —
distinct from returning the unaligned range, but not a named
`UnsupportedGranularityError`; downstream, `captureDocumentSelection` feeds the
`undefined` range to `xpath.fromRange` inside its per-range `try`/`catch`, so
every selected range is silently discarded and the capturer returns the empty
sequence, indistinguishable from a collapsed or failed selection. -/
theorem c5_unsupported (val : List Char) (r : RangeG) (sel : Selection) :
    alignRange Granularity.sentence val r = none ∧
    alignRange Granularity.paragraph val r = none ∧
    captureDocumentSelection Granularity.sentence val sel = [] ∧
    captureDocumentSelection Granularity.paragraph val sel = [] := by
  refine ⟨rfl, rfl, ?_, ?_⟩
  · unfold captureDocumentSelection
    split
    · rfl
    · exact filterMap_all_none _ _ (fun rr => by simp [processRange, alignRange])
  · unfold captureDocumentSelection
    split
    · rfl
    · exact filterMap_all_none _ _ (fun rr => by simp [processRange, alignRange])

/-- C5 counterexample: for a concrete valid selection under sentence
granularity the alignment outcome is `undefined` (`none`) — no
`UnsupportedGranularityError` value exists anywhere — and the capturer's
output is the empty sequence, the very same outcome a collapsed selection
produces under symbol granularity, so callers cannot recognize a distinct
"not yet supported" result. -/
theorem c5_counterexample :
    alignRange Granularity.sentence "ab cd".data ⟨0, 5, 0, 5, 0, 2⟩ = none ∧
    alignRange Granularity.paragraph "ab cd".data ⟨0, 5, 0, 5, 0, 2⟩ = none ∧
    captureDocumentSelection Granularity.sentence "ab cd".data
      ⟨false, [⟨⟨0, 5, 0, 5, 0, 2⟩, false, true⟩], "ab".data⟩ = [] ∧
    captureDocumentSelection Granularity.symbol "ab cd".data
      ⟨true, [⟨⟨0, 5, 0, 5, 0, 2⟩, false, true⟩], "ab".data⟩ = [] := by
  decide

/-- C4 (amended): a selection range whose normalization fails is dropped while
the remaining ranges of the same capture are still processed; but a Region
whose offset resolution fails during materialization raises an uncaught
TypeError inside the `forEach` of `_handleUpdate` (the `if (!ss || !ee)` guard
is commented out), aborting the materialization of it and of every region
after it in the same pass. -/
theorem c4_isolation :
    (∀ (g : Granularity) (val t : List Char) (l1 : List RawRange) (b : RawRange)
        (l2 : List RawRange), processRange g val t b = none →
        captureDocumentSelection g val ⟨false, l1 ++ b :: l2, t⟩ =
          captureDocumentSelection g val ⟨false, l1 ++ l2, t⟩) ∧
    (∀ (root : List Leaf) (r : Region) (rest : List Region),
        materializeRegion root r = none → handleUpdate root (r :: rest) = ([], true)) := by
  constructor
  · intro g val t l1 b l2 h
    simp [captureDocumentSelection, List.filterMap_append, List.filterMap_cons, h]
  · intro root r rest h
    simp [handleUpdate, h]

/-- C4 witness: a range outside the root is dropped without affecting the
(empty) remainder, and a region with a negative offset aborts the pass. -/
theorem c4_isolation_witness :
    captureDocumentSelection Granularity.symbol []
        ⟨false, [⟨⟨0, 0, 0, 0, 0, 0⟩, false, false⟩], []⟩ =
      captureDocumentSelection Granularity.symbol [] ⟨false, [], []⟩ ∧
    handleUpdate [] [⟨-1, 0⟩] = ([], true) :=
  ⟨c4_isolation.1 Granularity.symbol [] [] [] ⟨⟨0, 0, 0, 0, 0, 0⟩, false, false⟩ []
      (by decide),
   c4_isolation.2 [] ⟨-1, 0⟩ [] (by decide)⟩

/-- C4 counterexample: on the root `["ab"]` a first region with stale offsets
(5, 6) fails to resolve, and the pass aborts with nothing materialized — the
second region (0, 1), although materializable on its own, is not processed,
contradicting per-item isolation during materialization. -/
theorem c4_counterexample :
    handleUpdate [Leaf.text "ab".data] [⟨5, 6⟩, ⟨0, 1⟩] = ([], true) ∧
    materializeRegion [Leaf.text "ab".data] ⟨0, 1⟩ = some ((0, 0), (0, 1)) := by
  decide

/-- C6 (amended): for every restored serialized region (other than the
textarea/choices delegations), the region's persisted coordinates are copied
verbatim from the serialized `start`/`end` fields — the serialized integer
fields `startOffset`/`endOffset` are destructured but never used — and the
node-path strings of the restored region are set to empty strings. -/
theorem c6_restore (obj : SerObj)
    (h : ¬(obj.fromType = "textarea" ∨ obj.fromType = "choices")) :
    fromStateJSON obj = some ⟨obj.id, obj.value.start, obj.value.«end», .str "", .str "",
      obj.value.text, obj.normalization⟩ := by
  unfold fromStateJSON
  rw [if_neg h]

/-- C6 witness: restoring a concrete labels-type serialized region. -/
theorem c6_restore_witness :
    fromStateJSON ⟨"r1", ⟨.str "xp1", .int 10, .str "xp2", .int 20, "t"⟩, "labels", "nm"⟩ =
      some ⟨"r1", .str "xp1", .str "xp2", .str "", .str "", "t", "nm"⟩ :=
  c6_restore ⟨"r1", ⟨.str "xp1", .int 10, .str "xp2", .int 20, "t"⟩, "labels", "nm"⟩
    (by decide)

/-- C6 counterexample: a serialized region whose `start`/`end` node-path
strings differ from its integer `startOffset`/`endOffset` fields restores to a
region whose coordinates are the node-path strings, not the integers 10 and
20 — so the integer fields are not the source of the restored offsets. -/
theorem c6_counterexample :
    (fromStateJSON ⟨"r1", ⟨.str "xp1", .int 10, .str "xp2", .int 20, "t"⟩, "labels",
        "nm"⟩).map (fun tr => (tr.startOffset, tr.endOffset)) =
      some (.str "xp1", .str "xp2") ∧
    (⟨.str "xp1", .int 10, .str "xp2", .int 20, "t"⟩ : SerValue).startOffset = .int 10 ∧
    (⟨.str "xp1", .int 10, .str "xp2", .int 20, "t"⟩ : SerValue).endOffset = .int 20 := by
  decide

/-- C8: a collapsed (zero-width) platform selection makes the capturer return
the empty sequence, and the mouse-up handler creates no region from it. -/
theorem c8_collapsed (enabled : Bool) (g : Granularity) (val : List Char)
    (states : Option Nat) (sel : Selection) (h : sel.isCollapsed = true) :
    captureDocumentSelection g val sel = [] ∧
    onMouseUp enabled g val states sel = [] := by
  have hcap : captureDocumentSelection g val sel = [] := by
    simp [captureDocumentSelection, h]
  refine ⟨hcap, ?_⟩
  cases enabled with
  | false => simp [onMouseUp]
  | true =>
    cases states with
    | none => simp [onMouseUp]
    | some n =>
      cases n with
      | zero => simp [onMouseUp, hcap]
      | succ m => simp [onMouseUp, hcap]

/-- C8 witness: a collapsed selection with active states yields no captured
range and no created region. -/
theorem c8_collapsed_witness :
    captureDocumentSelection Granularity.symbol "ab".data ⟨true, [], "ab".data⟩ = [] ∧
    onMouseUp true Granularity.symbol "ab".data (some 1) ⟨true, [], "ab".data⟩ = [] :=
  c8_collapsed true Granularity.symbol "ab".data (some 1) ⟨true, [], "ab".data⟩ rfl

/-- C10: on every mouse-up at most one region is created, and whenever the
capturer returns a non-empty sequence (selection enabled, active states
present), exactly the first captured range becomes the region — the remaining
captured ranges are discarded, whatever they are. -/
theorem c10_single_region (g : Granularity) (val : List Char) (sel : Selection) :
    (∀ (enabled : Bool) (states : Option Nat),
        (onMouseUp enabled g val states sel).length ≤ 1) ∧
    (∀ (n : Nat) (r0 : NormedRange) (rest : List NormedRange),
        captureDocumentSelection g val sel = r0 :: rest →
        onMouseUp true g val (some (n + 1)) sel = [mkRegion r0]) := by
  constructor
  · intro enabled states
    cases enabled with
    | false => simp [onMouseUp]
    | true =>
      cases states with
      | none => simp [onMouseUp]
      | some n =>
        cases n with
        | zero => simp [onMouseUp]
        | succ m =>
          cases hcap : captureDocumentSelection g val sel with
          | nil => simp [onMouseUp, hcap]
          | cons r0 rest => simp [onMouseUp, hcap]
  · intro n r0 rest h
    simp [onMouseUp, h]

/-- C10 witness: a selection capturing one range creates exactly the region of
that first range. -/
theorem c10_single_region_witness :
    onMouseUp true Granularity.symbol "abc".data (some 1)
        ⟨false, [⟨⟨0, 3, 0, 3, 0, 2⟩, false, true⟩], "ab".data⟩ =
      [mkRegion ⟨0, 2, "ab".data⟩] :=
  (c10_single_region Granularity.symbol "abc".data
      ⟨false, [⟨⟨0, 3, 0, 3, 0, 2⟩, false, true⟩], "ab".data⟩).2 0 ⟨0, 2, "ab".data⟩ []
    (by decide)

end TextTag
